import Mathlib

/-!
Verification development for the LelandStocks Discord bot (`src/bot.py`).

The development shallowly embeds the computational core of the bot:

* `calculate_daily_performance` (bot.py lines 299-350): the aggregation that
  diffs two leaderboard snapshots (dictionaries mapping usernames to
  `[money, link, stocks]` records) into a daily summary.
* `get_user_info` (bot.py lines 23-38): the user-lookup helper over the
  pandas dataframe built from a snapshot, which coerces the money column
  to numeric in place before looking up a row.
* the `/leaderboard` command's top-N selection (bot.py lines 209-231).

Modelling conventions:

* Python numbers are embedded as rationals (`ℚ`): the program only adds,
  subtracts and divides snapshot balances, so exact arithmetic is the
  faithful reading of the intended decimal-currency semantics.
* For the dictionary path (`calculate_daily_performance`) a user record's
  raw balance field is `Option ℚ`: `some q` when Python's `float(...)`
  accepts the field with numeric value `q` (a JSON number or a numeric
  string), `none` when `float(...)` raises `ValueError` (a non-numeric
  field).  This abstracts the library function `float`, which is not part
  of the repository's source.
* Python's `x / y` on numbers raises `ZeroDivisionError` when `y == 0`;
  the embedding makes that explicit with a test, since `ℚ` division is
  total.
* Python dictionaries iterate in insertion order, so a snapshot is an
  ordered association list `List (String × UserRec)`; dictionary lookup
  is first-match lookup (keys of a real dict are unique).
* Python's `sorted(..., key=k, reverse=True)` is the stable descending
  sort by `k`.  A stable sort is uniquely determined by its specification,
  so it is embedded as `List.insertionSort` with the relation
  `fun a b => k b ≤ k a`, which is stable and sorts descending.
-/

instance instDecEqExcept {ε α : Type} [DecidableEq ε] [DecidableEq α] :
    DecidableEq (Except ε α) := fun x y =>
  match x, y with
  | .ok a, .ok b =>
    if h : a = b then isTrue (congrArg Except.ok h)
    else isFalse (fun k => h (Except.ok.inj k))
  | .error a, .error b =>
    if h : a = b then isTrue (congrArg Except.error h)
    else isFalse (fun k => h (Except.error.inj k))
  | .ok _, .error _ => isFalse (fun k => Except.noConfusion k)
  | .error _, .ok _ => isFalse (fun k => Except.noConfusion k)

/-- A single holding, `[symbol, quantity, value-label]` in the JSON
(`stock[0]`, `stock[1]`, `stock[2]` in the source).  Only the symbol is
inspected for trade detection; quantity and label are opaque strings. -/
structure Holding where
  symbol : String
  qty : String
  label : String
  deriving DecidableEq, Repr

/-- A user record of a leaderboard snapshot: `[money, link, stocks]`.
`balance` is the raw money field as seen through `float(...)`:
`some q` when numeric with value `q`, `none` when `float` would raise. -/
structure UserRec where
  balance : Option ℚ
  link : String
  holdings : List Holding
  deriving DecidableEq, Repr

/-- A leaderboard snapshot: a username-keyed dictionary in insertion
order. -/
abbrev Snapshot := List (String × UserRec)

/-- Dictionary lookup: the record stored under username `u`, if any. -/
def Snapshot.lookup (snap : Snapshot) (u : String) : Option UserRec :=
  (snap.find? (fun e => e.1 = u)).map (fun e => e.2)

/-- The errors `calculate_daily_performance` can raise: `ValueError` from
`float(...)` on a non-numeric balance (the spec's `DataFormatError`) and
`ZeroDivisionError` from a zero baseline balance. -/
inductive CalcError where
  | dataFormat
  | divByZero
  deriving DecidableEq, Repr

/-- `float(record[0])`: the numeric balance, or a `ValueError`. -/
def parseBalance (r : UserRec) : Except CalcError ℚ :=
  match r.balance with
  | some q => .ok q
  | none => .error .dataFormat

/-- `set(stock[0] for stock in record[2])`: the set of held symbols. -/
def symbols (r : UserRec) : Finset String :=
  (r.holdings.map Holding.symbol).toFinset

/-- One per-user performance entry appended to the `performance` list. -/
structure Perf where
  username : String
  change_amount : ℚ
  change_percent : ℚ
  trades : ℕ
  deriving DecidableEq, Repr

/-- The shape of the `biggest_gain` / `biggest_loss` dictionaries. -/
structure Gain where
  username : String
  amount : ℚ
  percent : ℚ
  deriving DecidableEq, Repr

/-- The dictionary returned by `calculate_daily_performance`. -/
structure DailySummary where
  performance : List Perf
  total_trades : ℕ
  biggest_gain : Gain
  biggest_loss : Gain
  most_active : List Perf
  deriving DecidableEq, Repr

/-- The loop body of `calculate_daily_performance` for one username `u`
present in both snapshots, with baseline record `pr` and current record
`cr`: parse the previous balance, parse the current balance, compute the
symmetric difference of symbol sets, then the change and the percent
change (raising `ZeroDivisionError` when the previous balance is 0). -/
def comparePerf (u : String) (pr cr : UserRec) : Except CalcError Perf :=
  match parseBalance pr with
  | .error e => .error e
  | .ok prev_money =>
    match parseBalance cr with
    | .error e => .error e
    | .ok curr_money =>
      let trade_count := (symmDiff (symbols cr) (symbols pr)).card
      let change_amount := curr_money - prev_money
      if prev_money = 0 then .error .divByZero
      else .ok ⟨u, change_amount, change_amount / prev_money * 100, trade_count⟩

/-- The `for username in current_data` loop: walk the current snapshot in
order, skip usernames absent from the previous snapshot, and collect the
per-user performance entries; the first raised error aborts the whole
computation. -/
def perfList (previous : Snapshot) : List (String × UserRec) → Except CalcError (List Perf)
  | [] => .ok []
  | (u, r) :: rest =>
    match previous.lookup u with
    | none => perfList previous rest
    | some pr =>
      match comparePerf u pr r with
      | .error e => .error e
      | .ok p =>
        match perfList previous rest with
        | .error e => .error e
        | .ok l => .ok (p :: l)

/-- The initial `{"username": "", "amount": 0, "percent": 0}` sentinel. -/
def sentinel : Gain := ⟨"", 0, 0⟩

/-- `if percent_change > biggest_gain["percent"]: biggest_gain = {...}`. -/
def updateGain (g : Gain) (p : Perf) : Gain :=
  if g.percent < p.change_percent then ⟨p.username, p.change_amount, p.change_percent⟩ else g

/-- `if percent_change < biggest_loss["percent"]: biggest_loss = {...}`. -/
def updateLoss (g : Gain) (p : Perf) : Gain :=
  if p.change_percent < g.percent then ⟨p.username, p.change_amount, p.change_percent⟩ else g

/-- Descending order on `change_percent`, the key of
`sorted(performance, key=lambda x: x["change_percent"], reverse=True)`. -/
def perfGe (a b : Perf) : Prop := b.change_percent ≤ a.change_percent

instance : DecidableRel perfGe := fun a b =>
  inferInstanceAs (Decidable (b.change_percent ≤ a.change_percent))

/-- Descending order on `trades`, the key of
`sorted(performance, key=lambda x: x["trades"], reverse=True)`. -/
def tradesGe (a b : Perf) : Prop := b.trades ≤ a.trades

instance : DecidableRel tradesGe := fun a b =>
  inferInstanceAs (Decidable (b.trades ≤ a.trades))

/-- `calculate_daily_performance(previous_data, current_data)`
(bot.py lines 299-350).  The single pass of the source both builds the
`performance` list and folds `total_trades`, `biggest_gain` and
`biggest_loss` over the entries it appends, in order; the embedding
factors that pass into `perfList` followed by the corresponding folds
over the collected entries, which compute the same values in the same
order.  Exceptions escape the Python function, so the result is
`Except CalcError DailySummary`. -/
def calculate_daily_performance (previous current : Snapshot) :
    Except CalcError DailySummary :=
  match perfList previous current with
  | .error e => .error e
  | .ok perf =>
    .ok { performance := List.insertionSort perfGe perf
          total_trades := (perf.map Perf.trades).sum
          biggest_gain := perf.foldl updateGain sentinel
          biggest_loss := perf.foldl updateLoss sentinel
          most_active := (List.insertionSort tradesGe perf).take 3 }

/-! ### Order instances for the sort relations -/

instance : IsTotal Perf perfGe :=
  ⟨fun a b => (le_total b.change_percent a.change_percent).imp id id⟩

instance : IsTrans Perf perfGe :=
  ⟨fun _ _ _ hab hbc => le_trans hbc hab⟩

instance : IsTotal Perf tradesGe :=
  ⟨fun a b => (Nat.le_total b.trades a.trades).imp id id⟩

instance : IsTrans Perf tradesGe :=
  ⟨fun _ _ _ hab hbc => Nat.le_trans hbc hab⟩

/-! ### The dataframe path: `get_user_info` and the `/leaderboard` command

The slash commands build a pandas dataframe from the snapshot JSON with
columns `Account Name`, `Money In Account`, `Investopedia Link`,
`Stocks Invested In`.  A raw money cell is a Python value:
`Cell.num q` for a value `pd.to_numeric` coerces to the number `q`
(a JSON number or a numeric string), `Cell.str s` for a non-coercible
value, and `Cell.nan` for NaN. -/

inductive Cell where
  | num : ℚ → Cell
  | str : String → Cell
  | nan : Cell
  deriving DecidableEq, Repr

/-- `pd.to_numeric(df["Money In Account"], errors="coerce")` on one
cell: coercible values become their number, everything else NaN. -/
def coerceCell : Cell → Cell
  | .num q => .num q
  | .str _ => .nan
  | .nan => .nan

/-- Whether a cell is a plain number. -/
def Cell.isNum : Cell → Bool
  | .num _ => true
  | _ => false

/-- One dataframe row. -/
structure Row where
  accountName : String
  money : Cell
  link : String
  stocks : List Holding
  deriving DecidableEq, Repr

/-- The in-place column write
`df["Money In Account"] = pd.to_numeric(df["Money In Account"], errors="coerce")`
viewed row-wise. -/
def coerceRow (r : Row) : Row :=
  { r with money := coerceCell r.money }

/-- `"\n".join(f"{stock[0]}: {stock[1]} ({stock[2]})" for stock in user_stocks)`. -/
def formatHoldings (hs : List Holding) : String :=
  String.intercalate "\n"
    (hs.map (fun h => h.symbol ++ ": " ++ h.qty ++ " (" ++ h.label ++ ")"))

/-- `get_user_info(df, username)` (bot.py lines 23-38).  The function
first overwrites the money column of its argument with the coerced
values, then selects the rows whose `Account Name` equals `username`;
it returns `None` when there are none and otherwise the name, (coerced)
money and formatted holdings of the first such row.  Since the column
write mutates the caller's dataframe, the embedding returns the updated
table alongside the optional result. -/
def get_user_info (df : List Row) (username : String) :
    List Row × Option (String × Cell × String) :=
  let coerced := df.map coerceRow
  match coerced.find? (fun r => r.accountName = username) with
  | none => (coerced, none)
  | some r => (coerced, some (r.accountName, r.money, formatHoldings r.stocks))

/-- The numeric sort key of a raw money cell.  `df.sort_values` compares
the raw column values; that comparison is numeric exactly when every
cell is numeric (`Cell.isNum`), which is the hypothesis the leaderboard
theorem carries, and the `0` fallbacks are never reached under it. -/
def cellKey : Cell → ℚ
  | .num q => q
  | .str _ => 0
  | .nan => 0

/-- Descending order on the money column, the key order of
`df.sort_values(by="Money In Account", ascending=False)`. -/
def moneyGe (a b : Row) : Prop := cellKey b.money ≤ cellKey a.money

instance : DecidableRel moneyGe := fun a b =>
  inferInstanceAs (Decidable (cellKey b.money ≤ cellKey a.money))

instance : IsTotal Row moneyGe :=
  ⟨fun a b => (le_total (cellKey b.money) (cellKey a.money)).imp id id⟩

instance : IsTrans Row moneyGe :=
  ⟨fun _ _ _ hab hbc => le_trans hbc hab⟩

/-- The `/leaderboard` command's selection (bot.py lines 209-231): sort
the dataframe descending by the money column, clamp the requested count
with `count = max(1, min(count, 10))`, and take the first
`min(count, len(df))` rows (`List.take` of the clamped count).
`count : ℤ` models the Python `int` argument, which may be negative;
pandas' default sort is not stable, so ties here appear in one valid
order among several the source admits. -/
def leaderboardTop (df : List Row) (count : ℤ) : List Row :=
  (List.insertionSort moneyGe df).take (max 1 (min count 10)).toNat

/-! ### Concrete snapshots used to instantiate the theorems -/

def exPrev : Snapshot := [("alice", ⟨some 1000, "", [⟨"AAPL", "10", "x"⟩]⟩)]

def exCurr : Snapshot :=
  [("alice", ⟨some 1200, "", [⟨"AAPL", "10", "x"⟩, ⟨"TSLA", "5", "y"⟩]⟩)]

def exSummary : DailySummary :=
  ⟨[⟨"alice", 200, 20, 1⟩], 1, ⟨"alice", 200, 20⟩, ⟨"", 0, 0⟩, [⟨"alice", 200, 20, 1⟩]⟩

def exZeroPrev : Snapshot := [("dave", ⟨some 0, "", []⟩)]

def exZeroCurr : Snapshot := [("dave", ⟨some 5, "", []⟩)]

def exFlatPrev : Snapshot := [("carol", ⟨some 100, "", []⟩)]

def exFlatCurr : Snapshot := [("carol", ⟨some 100, "", []⟩)]

def exFlatSummary : DailySummary :=
  ⟨[⟨"carol", 0, 0, 0⟩], 0, ⟨"", 0, 0⟩, ⟨"", 0, 0⟩, [⟨"carol", 0, 0, 0⟩]⟩

def exPrev2 : Snapshot :=
  [("alice", ⟨some 1000, "", []⟩), ("bob", ⟨some 1000, "", []⟩)]

def exCurr2 : Snapshot :=
  [("alice", ⟨some 1200, "", []⟩), ("bob", ⟨some 900, "", []⟩)]

def exSummary2 : DailySummary :=
  ⟨[⟨"alice", 200, 20, 0⟩, ⟨"bob", -100, -10, 0⟩], 0,
   ⟨"alice", 200, 20⟩, ⟨"bob", -100, -10⟩,
   [⟨"alice", 200, 20, 0⟩, ⟨"bob", -100, -10, 0⟩]⟩

def exMixPrev : Snapshot := [("a", ⟨some 0, "", []⟩), ("b", ⟨none, "", []⟩)]

def exMixCurr : Snapshot := [("a", ⟨some 5, "", []⟩), ("b", ⟨some 3, "", []⟩)]

def exBadPrev : Snapshot := [("erin", ⟨none, "", []⟩)]

def exBadCurr : Snapshot := [("erin", ⟨some 3, "", []⟩)]

def exDf : List Row := [⟨"alice", .num 1200, "", []⟩, ⟨"bob", .num 900, "", []⟩]

def exDfBad : List Row := [⟨"zed", .str "oops", "", []⟩]

/-! ### Basic facts about dictionary lookup -/

theorem lookup_mem {snap : Snapshot} {u : String} {r : UserRec}
    (h : snap.lookup u = some r) : (u, r) ∈ snap := by
  rw [Snapshot.lookup] at h
  cases hf : snap.find? (fun e => e.1 = u) with
  | none => rw [hf] at h; cases h
  | some e =>
    rw [hf] at h
    have h2 : e.2 = r := Option.some.inj h
    have hps := List.find?_some hf
    have he : e.1 = u := by simpa using hps
    have hm := List.mem_of_find?_eq_some hf
    rw [← he, ← h2]
    exact hm

theorem lookup_isSome_of_mem {snap : Snapshot} {u : String} {r : UserRec}
    (h : (u, r) ∈ snap) : ∃ r', snap.lookup u = some r' := by
  have hs : (snap.find? (fun e => e.1 = u)).isSome := by
    rw [List.find?_isSome]
    exact ⟨(u, r), h, by simp⟩
  cases hf : snap.find? (fun e => e.1 = u) with
  | none => rw [hf] at hs; cases hs
  | some e => exact ⟨e.2, by rw [Snapshot.lookup, hf]; rfl⟩

/-! ### Facts about `comparePerf` -/

theorem comparePerf_ok {u : String} {pr cr : UserRec} {p : Perf}
    (h : comparePerf u pr cr = .ok p) :
    ∃ pm cm, pr.balance = some pm ∧ cr.balance = some cm ∧ pm ≠ 0 ∧
      p = ⟨u, cm - pm, (cm - pm) / pm * 100, (symmDiff (symbols cr) (symbols pr)).card⟩ := by
  cases hp : pr.balance with
  | none =>
    simp only [comparePerf, parseBalance, hp] at h
    exact Except.noConfusion h
  | some pm =>
    cases hc : cr.balance with
    | none =>
      simp only [comparePerf, parseBalance, hp, hc] at h
      exact Except.noConfusion h
    | some cm =>
      simp only [comparePerf, parseBalance, hp, hc] at h
      by_cases hz : pm = 0
      · rw [if_pos hz] at h
        exact Except.noConfusion h
      · rw [if_neg hz] at h
        exact ⟨pm, cm, rfl, rfl, hz, (Except.ok.inj h).symm⟩

theorem comparePerf_ok_of {u : String} {pr cr : UserRec} {pm cm : ℚ}
    (hp : pr.balance = some pm) (hc : cr.balance = some cm) (hz : pm ≠ 0) :
    comparePerf u pr cr =
      .ok ⟨u, cm - pm, (cm - pm) / pm * 100, (symmDiff (symbols cr) (symbols pr)).card⟩ := by
  simp only [comparePerf, parseBalance, hp, hc]
  rw [if_neg hz]

theorem comparePerf_error {u : String} {pr cr : UserRec} {e : CalcError}
    (h : comparePerf u pr cr = .error e) :
    e = .dataFormat ∨ (e = .divByZero ∧ pr.balance = some 0) := by
  cases hp : pr.balance with
  | none =>
    simp only [comparePerf, parseBalance, hp] at h
    exact Or.inl (Except.error.inj h).symm
  | some pm =>
    cases hc : cr.balance with
    | none =>
      simp only [comparePerf, parseBalance, hp, hc] at h
      exact Or.inl (Except.error.inj h).symm
    | some cm =>
      simp only [comparePerf, parseBalance, hp, hc] at h
      by_cases hz : pm = 0
      · rw [if_pos hz] at h
        exact Or.inr ⟨(Except.error.inj h).symm, congrArg some hz⟩
      · rw [if_neg hz] at h
        exact Except.noConfusion h

theorem comparePerf_error_of_balance_none {u : String} {pr cr : UserRec}
    (h : pr.balance = none ∨ cr.balance = none) :
    comparePerf u pr cr = .error .dataFormat := by
  rcases h with h | h
  · simp only [comparePerf, parseBalance, h]
  · cases hp : pr.balance with
    | none => simp only [comparePerf, parseBalance, hp]
    | some pm => simp only [comparePerf, parseBalance, hp, h]

theorem comparePerf_not_ok_of_zero {u : String} {pr cr : UserRec}
    (h : pr.balance = some 0) : ∀ p, comparePerf u pr cr ≠ .ok p := by
  intro p hk
  obtain ⟨pm, cm, hp, _, hz, _⟩ := comparePerf_ok hk
  rw [h] at hp
  exact hz (Option.some.inj hp).symm

/-! ### Facts about `perfList` -/

theorem perfList_ok_forall {prev : Snapshot} :
    ∀ {curr : List (String × UserRec)} {l : List Perf},
      perfList prev curr = .ok l →
      ∀ u r, (u, r) ∈ curr → ∀ pr, prev.lookup u = some pr →
        ∃ p, comparePerf u pr r = .ok p ∧ p ∈ l := by
  intro curr
  induction curr with
  | nil =>
    intro l _ u r hmem
    cases hmem
  | cons hd tl ih =>
    obtain ⟨hu, hr⟩ := hd
    intro l hok u r hmem pr hpr
    rcases List.mem_cons.mp hmem with heq | htl
    · obtain ⟨h1, h2⟩ := Prod.mk.inj heq
      subst h1
      subst h2
      simp only [perfList, hpr] at hok
      cases hcp : comparePerf u pr r with
      | error e =>
        simp only [hcp] at hok
        exact Except.noConfusion hok
      | ok p =>
        simp only [hcp] at hok
        cases hrest : perfList prev tl with
        | error e =>
          simp only [hrest] at hok
          exact Except.noConfusion hok
        | ok l' =>
          simp only [hrest] at hok
          cases hok
          exact ⟨p, rfl, List.mem_cons_self ..⟩
    · cases hlk : Snapshot.lookup prev hu with
      | none =>
        simp only [perfList, hlk] at hok
        exact ih hok u r htl pr hpr
      | some pr0 =>
        simp only [perfList, hlk] at hok
        cases hcp : comparePerf hu pr0 hr with
        | error e =>
          simp only [hcp] at hok
          exact Except.noConfusion hok
        | ok p0 =>
          simp only [hcp] at hok
          cases hrest : perfList prev tl with
          | error e =>
            simp only [hrest] at hok
            exact Except.noConfusion hok
          | ok l' =>
            simp only [hrest] at hok
            cases hok
            obtain ⟨p, hp1, hp2⟩ := ih hrest u r htl pr hpr
            exact ⟨p, hp1, List.mem_cons_of_mem _ hp2⟩

theorem perfList_ok_mem {prev : Snapshot} :
    ∀ {curr : List (String × UserRec)} {l : List Perf},
      perfList prev curr = .ok l →
      ∀ p, p ∈ l →
        ∃ u r pr, (u, r) ∈ curr ∧ prev.lookup u = some pr ∧ comparePerf u pr r = .ok p := by
  intro curr
  induction curr with
  | nil =>
    intro l hok p hp
    simp only [perfList] at hok
    cases hok
    cases hp
  | cons hd tl ih =>
    obtain ⟨hu, hr⟩ := hd
    intro l hok p hp
    cases hlk : Snapshot.lookup prev hu with
    | none =>
      simp only [perfList, hlk] at hok
      obtain ⟨u, r, pr, h1, h2, h3⟩ := ih hok p hp
      exact ⟨u, r, pr, List.mem_cons_of_mem _ h1, h2, h3⟩
    | some pr0 =>
      simp only [perfList, hlk] at hok
      cases hcp : comparePerf hu pr0 hr with
      | error e =>
        simp only [hcp] at hok
        exact Except.noConfusion hok
      | ok p0 =>
        simp only [hcp] at hok
        cases hrest : perfList prev tl with
        | error e =>
          simp only [hrest] at hok
          exact Except.noConfusion hok
        | ok l' =>
          simp only [hrest] at hok
          cases hok
          rcases List.mem_cons.mp hp with rfl | hp'
          · exact ⟨hu, hr, pr0, List.mem_cons_self .., hlk, hcp⟩
          · obtain ⟨u, r, pr, h1, h2, h3⟩ := ih hrest p hp'
            exact ⟨u, r, pr, List.mem_cons_of_mem _ h1, h2, h3⟩

theorem perfList_error_exists {prev curr : Snapshot} {u : String} {r pr : UserRec}
    (hmem : (u, r) ∈ curr) (hpr : prev.lookup u = some pr)
    (hbad : ∀ p, comparePerf u pr r ≠ .ok p) :
    ∃ e, perfList prev curr = .error e := by
  cases hl : perfList prev curr with
  | ok l =>
    obtain ⟨p, hcp, _⟩ := perfList_ok_forall hl u r hmem pr hpr
    exact absurd hcp (hbad p)
  | error e => exact ⟨e, rfl⟩

theorem perfList_error_mem {prev : Snapshot} :
    ∀ {curr : List (String × UserRec)} {e : CalcError},
      perfList prev curr = .error e →
      ∃ u r pr, (u, r) ∈ curr ∧ prev.lookup u = some pr ∧ comparePerf u pr r = .error e := by
  intro curr
  induction curr with
  | nil =>
    intro e he
    simp only [perfList] at he
    exact Except.noConfusion he
  | cons hd tl ih =>
    obtain ⟨hu, hr⟩ := hd
    intro e he
    cases hlk : Snapshot.lookup prev hu with
    | none =>
      simp only [perfList, hlk] at he
      obtain ⟨u, r, pr, h1, h2, h3⟩ := ih he
      exact ⟨u, r, pr, List.mem_cons_of_mem _ h1, h2, h3⟩
    | some pr0 =>
      simp only [perfList, hlk] at he
      cases hcp : comparePerf hu pr0 hr with
      | error e0 =>
        simp only [hcp] at he
        cases he
        exact ⟨hu, hr, pr0, List.mem_cons_self .., hlk, hcp⟩
      | ok p0 =>
        simp only [hcp] at he
        cases hrest : perfList prev tl with
        | error e0 =>
          simp only [hrest] at he
          cases he
          obtain ⟨u, r, pr, h1, h2, h3⟩ := ih hrest
          exact ⟨u, r, pr, List.mem_cons_of_mem _ h1, h2, h3⟩
        | ok l' =>
          simp only [hrest] at he
          exact Except.noConfusion he

/-! ### Destructuring `calculate_daily_performance` -/

theorem calculate_ok {prev curr : Snapshot} {s : DailySummary}
    (h : calculate_daily_performance prev curr = .ok s) :
    ∃ l, perfList prev curr = .ok l ∧
      s = ⟨List.insertionSort perfGe l, (l.map Perf.trades).sum,
           l.foldl updateGain sentinel, l.foldl updateLoss sentinel,
           (List.insertionSort tradesGe l).take 3⟩ := by
  cases hl : perfList prev curr with
  | error e =>
    simp only [calculate_daily_performance, hl] at h
    exact Except.noConfusion h
  | ok l =>
    simp only [calculate_daily_performance, hl] at h
    exact ⟨l, rfl, (Except.ok.inj h).symm⟩

theorem calculate_error_iff {prev curr : Snapshot} {e : CalcError} :
    calculate_daily_performance prev curr = .error e ↔ perfList prev curr = .error e := by
  cases hl : perfList prev curr with
  | error e0 =>
    simp only [calculate_daily_performance, hl]
    exact ⟨fun h => congrArg Except.error (Except.error.inj h),
      fun h => congrArg Except.error (Except.error.inj h)⟩
  | ok l =>
    simp only [calculate_daily_performance, hl]
    constructor
    · intro h; exact Except.noConfusion h
    · intro h; exact Except.noConfusion h

theorem calculate_not_ok {prev curr : Snapshot} {e : CalcError}
    (h : perfList prev curr = .error e) :
    ∀ s, calculate_daily_performance prev curr ≠ .ok s := by
  intro s hk
  obtain ⟨l, hl, _⟩ := calculate_ok hk
  rw [h] at hl
  exact Except.noConfusion hl

/-! ### The running-maximum / running-minimum folds -/

theorem foldl_updateGain_spec :
    ∀ (l : List Perf) (g : Gain),
      g.percent ≤ (l.foldl updateGain g).percent ∧
      (∀ p ∈ l, p.change_percent ≤ (l.foldl updateGain g).percent) ∧
      (l.foldl updateGain g = g ∨
        ∃ p ∈ l, l.foldl updateGain g = ⟨p.username, p.change_amount, p.change_percent⟩ ∧
          g.percent < p.change_percent) := by
  intro l
  induction l with
  | nil =>
    intro g
    refine ⟨le_refl _, ?_, Or.inl rfl⟩
    intro p hp
    cases hp
  | cons a t ih =>
    intro g
    obtain ⟨ih1, ih2, ih3⟩ := ih (updateGain g a)
    have hga : g.percent ≤ (updateGain g a).percent := by
      unfold updateGain
      split
      · next h => exact le_of_lt h
      · exact le_refl _
    have haa : a.change_percent ≤ (updateGain g a).percent := by
      unfold updateGain
      split
      · exact le_refl _
      · next h => exact le_of_not_lt h
    have hfc : (a :: t).foldl updateGain g = t.foldl updateGain (updateGain g a) := rfl
    refine ⟨?_, ?_, ?_⟩
    · rw [hfc]; exact le_trans hga ih1
    · intro p hp
      rcases List.mem_cons.mp hp with rfl | hp'
      · rw [hfc]; exact le_trans haa ih1
      · rw [hfc]; exact ih2 p hp'
    · rcases ih3 with heq | ⟨p, hp, hval, hlt⟩
      · by_cases h : g.percent < a.change_percent
        · right
          refine ⟨a, List.mem_cons_self .., ?_, h⟩
          rw [hfc, heq]
          unfold updateGain
          rw [if_pos h]
        · left
          rw [hfc, heq]
          unfold updateGain
          rw [if_neg h]
      · right
        exact ⟨p, List.mem_cons_of_mem _ hp, by rw [hfc]; exact hval,
          lt_of_le_of_lt hga hlt⟩

theorem foldl_updateLoss_spec :
    ∀ (l : List Perf) (g : Gain),
      (l.foldl updateLoss g).percent ≤ g.percent ∧
      (∀ p ∈ l, (l.foldl updateLoss g).percent ≤ p.change_percent) ∧
      (l.foldl updateLoss g = g ∨
        ∃ p ∈ l, l.foldl updateLoss g = ⟨p.username, p.change_amount, p.change_percent⟩ ∧
          p.change_percent < g.percent) := by
  intro l
  induction l with
  | nil =>
    intro g
    refine ⟨le_refl _, ?_, Or.inl rfl⟩
    intro p hp
    cases hp
  | cons a t ih =>
    intro g
    obtain ⟨ih1, ih2, ih3⟩ := ih (updateLoss g a)
    have hga : (updateLoss g a).percent ≤ g.percent := by
      unfold updateLoss
      split
      · next h => exact le_of_lt h
      · exact le_refl _
    have haa : (updateLoss g a).percent ≤ a.change_percent := by
      unfold updateLoss
      split
      · exact le_refl _
      · next h => exact le_of_not_lt h
    have hfc : (a :: t).foldl updateLoss g = t.foldl updateLoss (updateLoss g a) := rfl
    refine ⟨?_, ?_, ?_⟩
    · rw [hfc]; exact le_trans ih1 hga
    · intro p hp
      rcases List.mem_cons.mp hp with rfl | hp'
      · rw [hfc]; exact le_trans ih1 haa
      · rw [hfc]; exact ih2 p hp'
    · rcases ih3 with heq | ⟨p, hp, hval, hlt⟩
      · by_cases h : a.change_percent < g.percent
        · right
          refine ⟨a, List.mem_cons_self .., ?_, h⟩
          rw [hfc, heq]
          unfold updateLoss
          rw [if_pos h]
        · left
          rw [hfc, heq]
          unfold updateLoss
          rw [if_neg h]
      · right
        exact ⟨p, List.mem_cons_of_mem _ hp, by rw [hfc]; exact hval,
          lt_of_lt_of_le hlt hga⟩

/-! ### Stability of the embedded stable sort -/

theorem filter_orderedInsert {α : Type} (r : α → α → Prop) [DecidableRel r] (p : α → Bool)
    (hcond : ∀ a b, p a = true → ¬r a b → p b = false) (a : α) :
    ∀ l : List α,
      (l.orderedInsert r a).filter p = if p a then a :: l.filter p else l.filter p := by
  intro l
  induction l with
  | nil =>
    cases hpa : p a <;> simp [List.orderedInsert, List.filter, hpa]
  | cons b t ih =>
    by_cases hr : r a b
    · simp only [List.orderedInsert, if_pos hr]
      rw [List.filter_cons]
    · simp only [List.orderedInsert, if_neg hr]
      rw [List.filter_cons, List.filter_cons, ih]
      cases hpa : p a with
      | true =>
        have hpb : p b = false := hcond a b hpa hr
        simp [hpb]
      | false => simp

theorem filter_insertionSort {α : Type} (r : α → α → Prop) [DecidableRel r] (p : α → Bool)
    (hcond : ∀ a b, p a = true → ¬r a b → p b = false) :
    ∀ l : List α, (List.insertionSort r l).filter p = l.filter p := by
  intro l
  induction l with
  | nil => rfl
  | cons a t ih =>
    simp only [List.insertionSort]
    rw [filter_orderedInsert r p hcond a _, ih, List.filter_cons]

/-! ### The key order of the collected performance list -/

theorem perfList_usernames_sublist {prev : Snapshot} :
    ∀ {curr : List (String × UserRec)} {l : List Perf},
      perfList prev curr = .ok l →
      List.Sublist (l.map Perf.username) (curr.map Prod.fst) := by
  intro curr
  induction curr with
  | nil =>
    intro l hok
    simp only [perfList] at hok
    cases hok
    exact List.Sublist.refl _
  | cons hd tl ih =>
    obtain ⟨hu, hr⟩ := hd
    intro l hok
    cases hlk : Snapshot.lookup prev hu with
    | none =>
      simp only [perfList, hlk] at hok
      exact (ih hok).trans (List.sublist_cons_self ..)
    | some pr0 =>
      simp only [perfList, hlk] at hok
      cases hcp : comparePerf hu pr0 hr with
      | error e =>
        simp only [hcp] at hok
        exact Except.noConfusion hok
      | ok p0 =>
        simp only [hcp] at hok
        cases hrest : perfList prev tl with
        | error e =>
          simp only [hrest] at hok
          exact Except.noConfusion hok
        | ok l' =>
          simp only [hrest] at hok
          cases hok
          obtain ⟨pm, cm, _, _, _, hval⟩ := comparePerf_ok hcp
          have hu0 : p0.username = hu := by rw [hval]
          simp only [List.map_cons, hu0]
          exact List.Sublist.cons₂ _ (ih hrest)

/-! ### Uniqueness of records under distinct keys -/

theorem mem_unique_of_nodup_keys :
    ∀ {l : List (String × UserRec)}, (l.map Prod.fst).Nodup →
      ∀ {u : String} {a b : UserRec}, (u, a) ∈ l → (u, b) ∈ l → a = b := by
  intro l
  induction l with
  | nil =>
    intro _ u a b ha
    cases ha
  | cons hd tl ih =>
    intro hn u a b ha hb
    rw [List.map_cons, List.nodup_cons] at hn
    obtain ⟨hnot, htl⟩ := hn
    rcases List.mem_cons.mp ha with h1 | h1 <;> rcases List.mem_cons.mp hb with h2 | h2
    · rw [← h2] at h1
      exact (Prod.mk.inj h1).2
    · exfalso
      apply hnot
      rw [← (Prod.mk.inj h1).1]
      exact List.mem_map_of_mem Prod.fst h2
    · exfalso
      apply hnot
      rw [← (Prod.mk.inj h2).1]
      exact List.mem_map_of_mem Prod.fst h1
    · exact ih htl h1 h2

theorem map_eq_self_mem {α : Type} {f : α → α} :
    ∀ {l : List α}, l.map f = l → ∀ x ∈ l, f x = x := by
  intro l
  induction l with
  | nil =>
    intro _ x hx
    cases hx
  | cons a t ih =>
    intro h x hx
    rw [List.map_cons] at h
    obtain ⟨h1, h2⟩ := List.cons.inj h
    rcases List.mem_cons.mp hx with rfl | hx'
    · exact h1
    · exact ih h2 x hx'

theorem find?_coerce (df : List Row) (u : String) :
    (df.map coerceRow).find? (fun r => r.accountName = u) =
      (df.find? (fun r => r.accountName = u)).map coerceRow := by
  induction df with
  | nil => rfl
  | cons a t ih =>
    by_cases h : a.accountName = u
    · rw [List.map_cons, List.find?_cons_of_pos, List.find?_cons_of_pos]
      · rfl
      · simpa using h
      · simpa [coerceRow] using h
    · rw [List.map_cons, List.find?_cons_of_neg, List.find?_cons_of_neg, ih]
      · simpa using h
      · simpa [coerceRow] using h

/-! ### C1 -/

/-- C1: for every baseline snapshot `A` and current snapshot `B` whose
aggregation succeeds, and every username `u` present in both, the
performance record for `u` has `change_amount = B[u].balance - A[u].balance`. -/
theorem C1_change_amount {prev curr : Snapshot} {s : DailySummary} {u : String}
    {pr cr : UserRec} {p c : ℚ}
    (hs : calculate_daily_performance prev curr = .ok s)
    (hn : (curr.map Prod.fst).Nodup)
    (hpr : prev.lookup u = some pr) (hcr : curr.lookup u = some cr)
    (hp : pr.balance = some p) (hc : cr.balance = some c) :
    (∃ rec ∈ s.performance, rec.username = u) ∧
      ∀ rec ∈ s.performance, rec.username = u → rec.change_amount = c - p := by
  obtain ⟨l, hl, hsval⟩ := calculate_ok hs
  have hmemcur : (u, cr) ∈ curr := lookup_mem hcr
  have hperf : s.performance = List.insertionSort perfGe l := by rw [hsval]
  constructor
  · obtain ⟨q, hq, hql⟩ := perfList_ok_forall hl u cr hmemcur pr hpr
    obtain ⟨pm, cm, hpm, hcm, hz, hval⟩ := comparePerf_ok hq
    refine ⟨q, ?_, by rw [hval]⟩
    rw [hperf]
    exact (List.mem_insertionSort perfGe).mpr hql
  · intro rec hrec hru
    rw [hperf] at hrec
    have hrl : rec ∈ l := (List.mem_insertionSort perfGe).mp hrec
    obtain ⟨u', r', pr', hm', hlk', hcp'⟩ := perfList_ok_mem hl rec hrl
    obtain ⟨pm, cm, hpm, hcm, hz, hval⟩ := comparePerf_ok hcp'
    subst hval
    have huu : u' = u := hru
    subst huu
    have hr'cr : r' = cr := mem_unique_of_nodup_keys hn hm' hmemcur
    have hpr' : pr' = pr := Option.some.inj (hlk'.symm.trans hpr)
    rw [hpr'] at hpm
    rw [hr'cr] at hcm
    have hpmp : pm = p := Option.some.inj (hpm.symm.trans hp)
    have hcmc : cm = c := Option.some.inj (hcm.symm.trans hc)
    show cm - pm = c - p
    rw [hpmp, hcmc]

/-- C1 witness: the spec's worked scenario, `alice` going from 1000 to
1200. -/
theorem C1_witness :
    calculate_daily_performance exPrev exCurr = .ok exSummary ∧
    (exCurr.map Prod.fst).Nodup ∧
    exPrev.lookup "alice" = some ⟨some 1000, "", [⟨"AAPL", "10", "x"⟩]⟩ ∧
    exCurr.lookup "alice" =
      some ⟨some 1200, "", [⟨"AAPL", "10", "x"⟩, ⟨"TSLA", "5", "y"⟩]⟩ ∧
    ((∃ rec ∈ exSummary.performance, rec.username = "alice") ∧
      ∀ rec ∈ exSummary.performance, rec.username = "alice" →
        rec.change_amount = 1200 - 1000) :=
  ⟨by with_unfolding_all rfl, by decide, by with_unfolding_all rfl,
   by with_unfolding_all rfl,
   @C1_change_amount exPrev exCurr exSummary "alice"
     ⟨some 1000, "", [⟨"AAPL", "10", "x"⟩]⟩
     ⟨some 1200, "", [⟨"AAPL", "10", "x"⟩, ⟨"TSLA", "5", "y"⟩]⟩ 1000 1200
     (by with_unfolding_all rfl) (by decide) (by with_unfolding_all rfl)
     (by with_unfolding_all rfl) rfl rfl⟩

/-! ### C2 -/

/-- C2: for every pair of snapshots whose aggregation succeeds and every
username present in both, the record's `trades` equals the cardinality of
the symmetric difference of the two holding-symbol sets; in particular it
is `0` whenever the two holdings lists carry the same symbols, whatever
their quantity and value-label fields. -/
theorem C2_trade_count {prev curr : Snapshot} {s : DailySummary} {u : String}
    {pr cr : UserRec}
    (hs : calculate_daily_performance prev curr = .ok s)
    (hn : (curr.map Prod.fst).Nodup)
    (hpr : prev.lookup u = some pr) (hcr : curr.lookup u = some cr) :
    (∃ rec ∈ s.performance, rec.username = u) ∧
      (∀ rec ∈ s.performance, rec.username = u →
        rec.trades = (symmDiff (symbols cr) (symbols pr)).card) ∧
      (symbols pr = symbols cr →
        ∀ rec ∈ s.performance, rec.username = u → rec.trades = 0) := by
  obtain ⟨l, hl, hsval⟩ := calculate_ok hs
  have hmemcur : (u, cr) ∈ curr := lookup_mem hcr
  have hperf : s.performance = List.insertionSort perfGe l := by rw [hsval]
  have main : ∀ rec ∈ s.performance, rec.username = u →
      rec.trades = (symmDiff (symbols cr) (symbols pr)).card := by
    intro rec hrec hru
    rw [hperf] at hrec
    have hrl : rec ∈ l := (List.mem_insertionSort perfGe).mp hrec
    obtain ⟨u', r', pr', hm', hlk', hcp'⟩ := perfList_ok_mem hl rec hrl
    obtain ⟨pm, cm, hpm, hcm, hz, hval⟩ := comparePerf_ok hcp'
    subst hval
    have huu : u' = u := hru
    subst huu
    have hr'cr : r' = cr := mem_unique_of_nodup_keys hn hm' hmemcur
    have hpr' : pr' = pr := Option.some.inj (hlk'.symm.trans hpr)
    show (symmDiff (symbols r') (symbols pr')).card =
      (symmDiff (symbols cr) (symbols pr)).card
    rw [hr'cr, hpr']
  refine ⟨?_, main, ?_⟩
  · obtain ⟨q, hq, hql⟩ := perfList_ok_forall hl u cr hmemcur pr hpr
    obtain ⟨pm, cm, hpm, hcm, hz, hval⟩ := comparePerf_ok hq
    refine ⟨q, ?_, by rw [hval]⟩
    rw [hperf]
    exact (List.mem_insertionSort perfGe).mpr hql
  · intro hsym rec hrec hru
    rw [main rec hrec hru, ← hsym, symmDiff_self]
    rfl

/-- C2 witness: `alice` keeps AAPL (same quantity) and adds TSLA, so the
symmetric difference has one element. -/
theorem C2_witness :
    calculate_daily_performance exPrev exCurr = .ok exSummary ∧
    ((∃ rec ∈ exSummary.performance, rec.username = "alice") ∧
      (∀ rec ∈ exSummary.performance, rec.username = "alice" →
        rec.trades =
          (symmDiff (symbols ⟨some 1200, "", [⟨"AAPL", "10", "x"⟩, ⟨"TSLA", "5", "y"⟩]⟩)
            (symbols ⟨some 1000, "", [⟨"AAPL", "10", "x"⟩]⟩)).card) ∧
      (symbols (⟨some 1000, "", [⟨"AAPL", "10", "x"⟩]⟩ : UserRec) =
          symbols ⟨some 1200, "", [⟨"AAPL", "10", "x"⟩, ⟨"TSLA", "5", "y"⟩]⟩ →
        ∀ rec ∈ exSummary.performance, rec.username = "alice" → rec.trades = 0)) :=
  ⟨by with_unfolding_all rfl,
   @C2_trade_count exPrev exCurr exSummary "alice"
     ⟨some 1000, "", [⟨"AAPL", "10", "x"⟩]⟩
     ⟨some 1200, "", [⟨"AAPL", "10", "x"⟩, ⟨"TSLA", "5", "y"⟩]⟩
     (by with_unfolding_all rfl) (by decide) (by with_unfolding_all rfl)
     (by with_unfolding_all rfl)⟩

/-! ### C7 -/

/-- C7: a username contributes a record to the performance list exactly
when it is present in both the baseline and the current snapshot; users
present in only one snapshot contribute nothing. -/
theorem C7_both_presence {prev curr : Snapshot} {s : DailySummary}
    (hs : calculate_daily_performance prev curr = .ok s) :
    ∀ u, (∃ rec ∈ s.performance, rec.username = u) ↔
      ((∃ r, curr.lookup u = some r) ∧ (∃ r, prev.lookup u = some r)) := by
  obtain ⟨l, hl, hsval⟩ := calculate_ok hs
  have hperf : s.performance = List.insertionSort perfGe l := by rw [hsval]
  intro u
  constructor
  · rintro ⟨rec, hrec, hru⟩
    rw [hperf] at hrec
    have hrl : rec ∈ l := (List.mem_insertionSort perfGe).mp hrec
    obtain ⟨u', r', pr', hm', hlk', hcp'⟩ := perfList_ok_mem hl rec hrl
    obtain ⟨pm, cm, hpm, hcm, hz, hval⟩ := comparePerf_ok hcp'
    subst hval
    have huu : u' = u := hru
    subst huu
    exact ⟨lookup_isSome_of_mem hm', ⟨pr', hlk'⟩⟩
  · rintro ⟨⟨cr, hcr⟩, ⟨pr, hpr⟩⟩
    obtain ⟨q, hq, hql⟩ := perfList_ok_forall hl u cr (lookup_mem hcr) pr hpr
    obtain ⟨pm, cm, hpm, hcm, hz, hval⟩ := comparePerf_ok hq
    refine ⟨q, ?_, by rw [hval]⟩
    rw [hperf]
    exact (List.mem_insertionSort perfGe).mpr hql

/-- C7 witness: in the worked scenario, `alice` is in both snapshots and
appears; `nobody` is in neither and does not. -/
theorem C7_witness :
    calculate_daily_performance exPrev exCurr = .ok exSummary ∧
    (∀ u, (∃ rec ∈ exSummary.performance, rec.username = u) ↔
      ((∃ r, exCurr.lookup u = some r) ∧ (∃ r, exPrev.lookup u = some r))) :=
  ⟨by with_unfolding_all rfl,
   @C7_both_presence exPrev exCurr exSummary (by with_unfolding_all rfl)⟩

/-! ### C8 -/

/-- C8: the performance list is the stable descending sort of the
collected per-user entries by `change_percent`: it is sorted descending,
records with equal percent keep their relative order from the collected
list, and that list follows the current snapshot's key order. -/
theorem C8_sorted_stable {prev curr : Snapshot} {s : DailySummary} {l : List Perf}
    (hs : calculate_daily_performance prev curr = .ok s)
    (hl : perfList prev curr = .ok l) :
    List.Sorted perfGe s.performance ∧
      (∀ q : ℚ, s.performance.filter (fun rec => rec.change_percent = q) =
          l.filter (fun rec => rec.change_percent = q)) ∧
      List.Sublist (l.map Perf.username) (curr.map Prod.fst) := by
  obtain ⟨l', hl', hsval⟩ := calculate_ok hs
  have hll : l' = l := Except.ok.inj (hl'.symm.trans hl)
  subst hll
  have hperf : s.performance = List.insertionSort perfGe l' := by rw [hsval]
  refine ⟨?_, ?_, perfList_usernames_sublist hl⟩
  · rw [hperf]
    exact List.sorted_insertionSort perfGe l'
  · intro q
    rw [hperf]
    apply filter_insertionSort
    intro a b ha hr
    have ha' : a.change_percent = q := of_decide_eq_true ha
    have hab : a.change_percent < b.change_percent := not_le.mp hr
    apply decide_eq_false
    rw [← ha']
    exact ne_of_gt hab

/-- C8 witness: the worked scenario has a one-record list. -/
theorem C8_witness :
    calculate_daily_performance exPrev exCurr = .ok exSummary ∧
    perfList exPrev exCurr = .ok [⟨"alice", 200, 20, 1⟩] ∧
    (List.Sorted perfGe exSummary.performance ∧
      (∀ q : ℚ, exSummary.performance.filter (fun rec => rec.change_percent = q) =
          [(⟨"alice", 200, 20, 1⟩ : Perf)].filter (fun rec => rec.change_percent = q)) ∧
      List.Sublist ([(⟨"alice", 200, 20, 1⟩ : Perf)].map Perf.username)
        (exCurr.map Prod.fst)) :=
  ⟨by with_unfolding_all rfl, by with_unfolding_all rfl,
   @C8_sorted_stable exPrev exCurr exSummary [⟨"alice", 200, 20, 1⟩]
     (by with_unfolding_all rfl) (by with_unfolding_all rfl)⟩

/-! ### C4 -/

theorem comparePerf_error_kind {u : String} {pr cr : UserRec} {e : CalcError}
    (h : comparePerf u pr cr = .error e)
    (hp : ∃ pm, pr.balance = some pm) (hc : ∃ cm, cr.balance = some cm) :
    e = .divByZero ∧ pr.balance = some 0 := by
  obtain ⟨pm, hpm⟩ := hp
  obtain ⟨cm, hcm⟩ := hc
  rcases comparePerf_error h with hdf | hok
  · exfalso
    subst hdf
    simp only [comparePerf, parseBalance, hpm, hcm] at h
    by_cases hz : pm = 0
    · rw [if_pos hz] at h
      exact CalcError.noConfusion (Except.error.inj h)
    · rw [if_neg hz] at h
      exact Except.noConfusion h
  · exact hok

/-- C4: whenever a username present in both snapshots has a numeric
baseline balance of exactly 0, the aggregation raises instead of
returning any summary (the embedding returns an error and never an `ok`
value, so no infinite or NaN percent can reach a summary); when moreover
every balance in play is numeric, the raised error is precisely the
zero-baseline (`ZeroDivisionError`) condition. -/
theorem C4_zero_baseline {prev curr : Snapshot} {u : String} {pr cr : UserRec}
    (hpr : prev.lookup u = some pr) (hcr : curr.lookup u = some cr)
    (hz : pr.balance = some 0) :
    (∃ e, calculate_daily_performance prev curr = .error e) ∧
    ((∀ v pv, prev.lookup v = some pv → ∃ q, pv.balance = some q) →
      (∀ e ∈ curr, ∃ q, (Prod.snd e).balance = some q) →
      calculate_daily_performance prev curr = .error .divByZero) := by
  obtain ⟨e, he⟩ :=
    perfList_error_exists (lookup_mem hcr) hpr (comparePerf_not_ok_of_zero hz)
  refine ⟨⟨e, calculate_error_iff.mpr he⟩, ?_⟩
  intro hprevnum hcurrnum
  obtain ⟨u', r', pr', hm', hlk', hcp'⟩ := perfList_error_mem he
  obtain ⟨hkind, _⟩ := comparePerf_error_kind hcp' (hprevnum u' pr' hlk')
    (hcurrnum (u', r') hm')
  rw [hkind] at he
  exact calculate_error_iff.mpr he

/-- C4 witness: `dave` has baseline 0, and the aggregation raises
`ZeroDivisionError`. -/
theorem C4_witness :
    exZeroPrev.lookup "dave" = some ⟨some 0, "", []⟩ ∧
    exZeroCurr.lookup "dave" = some ⟨some 5, "", []⟩ ∧
    ((∃ e, calculate_daily_performance exZeroPrev exZeroCurr = .error e) ∧
      ((∀ v pv, exZeroPrev.lookup v = some pv → ∃ q, pv.balance = some q) →
        (∀ e ∈ exZeroCurr, ∃ q, (Prod.snd e).balance = some q) →
        calculate_daily_performance exZeroPrev exZeroCurr = .error .divByZero)) :=
  ⟨by with_unfolding_all rfl, by with_unfolding_all rfl,
   @C4_zero_baseline exZeroPrev exZeroCurr "dave" ⟨some 0, "", []⟩ ⟨some 5, "", []⟩
     (by with_unfolding_all rfl) (by with_unfolding_all rfl) rfl⟩

/-! ### C3 -/

/-- C3 counterexample: `carol`'s balance is unchanged, so her
`change_percent` is 0 — non-negative — yet `biggest_gain` remains the
sentinel with empty username, because the update condition
`percent_change > biggest_gain["percent"]` is strict and the sentinel
already has percent 0. -/
theorem C3_counterexample :
    calculate_daily_performance exFlatPrev exFlatCurr = .ok exFlatSummary ∧
    (∃ rec ∈ exFlatSummary.performance, 0 ≤ rec.change_percent) ∧
    exFlatSummary.biggest_gain.username = "" := by
  refine ⟨by with_unfolding_all rfl,
    ⟨⟨"carol", 0, 0, 0⟩, List.mem_cons_self .., le_refl 0⟩, rfl⟩

/-- C3 (amended): `biggest_gain` starts from the sentinel (empty
username, percent 0) and, whenever some compared user has a strictly
positive `change_percent`, it carries the maximum `change_percent`
together with the (non-empty) username and amount of a record attaining
it; when no compared percent is strictly positive the sentinel itself
surfaces.  `biggest_loss` behaves symmetrically for strictly negative
percents. -/
theorem C3_amended {prev curr : Snapshot} {s : DailySummary}
    (hs : calculate_daily_performance prev curr = .ok s)
    (hne : ∀ e ∈ curr, e.1 ≠ "") :
    ((∃ rec ∈ s.performance, 0 < rec.change_percent) →
        s.biggest_gain.username ≠ "" ∧
        (∀ rec ∈ s.performance, rec.change_percent ≤ s.biggest_gain.percent) ∧
        (∃ rec ∈ s.performance, rec.username = s.biggest_gain.username ∧
          rec.change_amount = s.biggest_gain.amount ∧
          rec.change_percent = s.biggest_gain.percent)) ∧
    ((∀ rec ∈ s.performance, rec.change_percent ≤ 0) → s.biggest_gain = sentinel) ∧
    ((∃ rec ∈ s.performance, rec.change_percent < 0) →
        s.biggest_loss.username ≠ "" ∧
        (∀ rec ∈ s.performance, s.biggest_loss.percent ≤ rec.change_percent) ∧
        (∃ rec ∈ s.performance, rec.username = s.biggest_loss.username ∧
          rec.change_amount = s.biggest_loss.amount ∧
          rec.change_percent = s.biggest_loss.percent)) ∧
    ((∀ rec ∈ s.performance, 0 ≤ rec.change_percent) → s.biggest_loss = sentinel) := by
  obtain ⟨l, hl, hsval⟩ := calculate_ok hs
  have hperf : s.performance = List.insertionSort perfGe l := by rw [hsval]
  have hgain : s.biggest_gain = l.foldl updateGain sentinel := by rw [hsval]
  have hloss : s.biggest_loss = l.foldl updateLoss sentinel := by rw [hsval]
  have hmem : ∀ rec : Perf, rec ∈ s.performance ↔ rec ∈ l := by
    intro rec
    rw [hperf]
    exact List.mem_insertionSort perfGe
  obtain ⟨g1, g2, g3⟩ := foldl_updateGain_spec l sentinel
  obtain ⟨m1, m2, m3⟩ := foldl_updateLoss_spec l sentinel
  refine ⟨?_, ?_, ?_, ?_⟩
  · rintro ⟨rec, hrec, hpos⟩
    have hrl := (hmem rec).mp hrec
    have hgp : (0:ℚ) < (l.foldl updateGain sentinel).percent :=
      lt_of_lt_of_le hpos (g2 rec hrl)
    rcases g3 with hsent | ⟨p, hpl, hval, _⟩
    · rw [hsent] at hgp
      exact absurd hgp (lt_irrefl 0)
    · obtain ⟨u', r', pr', hm', hlk', hcp'⟩ := perfList_ok_mem hl p hpl
      obtain ⟨pm, cm, _, _, _, hpval⟩ := comparePerf_ok hcp'
      have hup : p.username = u' := by rw [hpval]
      refine ⟨?_, ?_, ⟨p, (hmem p).mpr hpl, ?_, ?_, ?_⟩⟩
      · rw [hgain, hval]
        show p.username ≠ ""
        rw [hup]
        exact hne (u', r') hm'
      · intro rec2 hrec2
        rw [hgain]
        exact g2 rec2 ((hmem rec2).mp hrec2)
      · rw [hgain, hval]
      · rw [hgain, hval]
      · rw [hgain, hval]
  · intro hall
    rw [hgain]
    rcases g3 with hsent | ⟨p, hpl, hval, hlt⟩
    · exact hsent
    · have hle := hall p ((hmem p).mpr hpl)
      exact absurd hlt (not_lt.mpr hle)
  · rintro ⟨rec, hrec, hneg⟩
    have hrl := (hmem rec).mp hrec
    have hgp : (l.foldl updateLoss sentinel).percent < (0:ℚ) :=
      lt_of_le_of_lt (m2 rec hrl) hneg
    rcases m3 with hsent | ⟨p, hpl, hval, _⟩
    · rw [hsent] at hgp
      exact absurd hgp (lt_irrefl 0)
    · obtain ⟨u', r', pr', hm', hlk', hcp'⟩ := perfList_ok_mem hl p hpl
      obtain ⟨pm, cm, _, _, _, hpval⟩ := comparePerf_ok hcp'
      have hup : p.username = u' := by rw [hpval]
      refine ⟨?_, ?_, ⟨p, (hmem p).mpr hpl, ?_, ?_, ?_⟩⟩
      · rw [hloss, hval]
        show p.username ≠ ""
        rw [hup]
        exact hne (u', r') hm'
      · intro rec2 hrec2
        rw [hloss]
        exact m2 rec2 ((hmem rec2).mp hrec2)
      · rw [hloss, hval]
      · rw [hloss, hval]
      · rw [hloss, hval]
  · intro hall
    rw [hloss]
    rcases m3 with hsent | ⟨p, hpl, hval, hlt⟩
    · exact hsent
    · have hle := hall p ((hmem p).mpr hpl)
      exact absurd hlt (not_lt.mpr hle)

/-- C3 (amended) witness: `alice` gains 20 percent, `bob` loses 10
percent. -/
theorem C3_witness :
    calculate_daily_performance exPrev2 exCurr2 = .ok exSummary2 ∧
    (∀ e ∈ exCurr2, e.1 ≠ "") ∧
    (((∃ rec ∈ exSummary2.performance, 0 < rec.change_percent) →
        exSummary2.biggest_gain.username ≠ "" ∧
        (∀ rec ∈ exSummary2.performance,
          rec.change_percent ≤ exSummary2.biggest_gain.percent) ∧
        (∃ rec ∈ exSummary2.performance,
          rec.username = exSummary2.biggest_gain.username ∧
          rec.change_amount = exSummary2.biggest_gain.amount ∧
          rec.change_percent = exSummary2.biggest_gain.percent)) ∧
      ((∀ rec ∈ exSummary2.performance, rec.change_percent ≤ 0) →
        exSummary2.biggest_gain = sentinel) ∧
      ((∃ rec ∈ exSummary2.performance, rec.change_percent < 0) →
        exSummary2.biggest_loss.username ≠ "" ∧
        (∀ rec ∈ exSummary2.performance,
          exSummary2.biggest_loss.percent ≤ rec.change_percent) ∧
        (∃ rec ∈ exSummary2.performance,
          rec.username = exSummary2.biggest_loss.username ∧
          rec.change_amount = exSummary2.biggest_loss.amount ∧
          rec.change_percent = exSummary2.biggest_loss.percent)) ∧
      ((∀ rec ∈ exSummary2.performance, 0 ≤ rec.change_percent) →
        exSummary2.biggest_loss = sentinel)) :=
  ⟨by with_unfolding_all rfl, by decide,
   @C3_amended exPrev2 exCurr2 exSummary2 (by with_unfolding_all rfl) (by decide)⟩

/-! ### C5 -/

/-- C5 counterexample: user `b` is present in both snapshots with a
non-numeric baseline balance, so the claim requires the aggregation to
fail with the data-format error; but user `a` comes first in the current
snapshot's iteration order with a zero numeric baseline, so the
aggregation raises `ZeroDivisionError` before ever parsing `b`'s
balance. -/
theorem C5_counterexample :
    exMixPrev.lookup "b" = some ⟨none, "", []⟩ ∧
    exMixCurr.lookup "b" = some ⟨some 3, "", []⟩ ∧
    calculate_daily_performance exMixPrev exMixCurr = .error .divByZero ∧
    calculate_daily_performance exMixPrev exMixCurr ≠ .error .dataFormat := by
  have h3 : calculate_daily_performance exMixPrev exMixCurr = .error .divByZero := by
    with_unfolding_all rfl
  refine ⟨by with_unfolding_all rfl, by with_unfolding_all rfl, h3, ?_⟩
  rw [h3]
  intro hcontra
  exact CalcError.noConfusion (Except.error.inj hcontra)

/-- C5 (amended): when a username present in both snapshots has a
non-numeric balance on either side, the whole aggregation fails and
produces no summary at all; the error is the data-format error whenever
no baseline record in the previous snapshot has a numeric balance of 0
(otherwise an earlier user's zero baseline may surface the
division-by-zero error first). -/
theorem C5_data_format {prev curr : Snapshot} {u : String} {pr cr : UserRec}
    (hpr : prev.lookup u = some pr) (hcr : curr.lookup u = some cr)
    (hbad : pr.balance = none ∨ cr.balance = none) :
    (∃ e, calculate_daily_performance prev curr = .error e) ∧
    ((∀ v pv, prev.lookup v = some pv → pv.balance ≠ some 0) →
      calculate_daily_performance prev curr = .error .dataFormat) := by
  have hcmp : comparePerf u pr cr = .error .dataFormat :=
    comparePerf_error_of_balance_none hbad
  have hnotok : ∀ p, comparePerf u pr cr ≠ .ok p := by
    intro p hk
    rw [hcmp] at hk
    exact Except.noConfusion hk
  obtain ⟨e, he⟩ := perfList_error_exists (lookup_mem hcr) hpr hnotok
  refine ⟨⟨e, calculate_error_iff.mpr he⟩, ?_⟩
  intro hnz
  obtain ⟨u', r', pr', hm', hlk', hcp'⟩ := perfList_error_mem he
  rcases comparePerf_error hcp' with hdf | ⟨hdz, hz0⟩
  · rw [hdf] at he
    exact calculate_error_iff.mpr he
  · exact absurd hz0 (hnz u' pr' hlk')

/-- C5 witness: `erin` has a non-numeric baseline balance and no zero
baseline exists, so the aggregation fails with the data-format error. -/
theorem C5_witness :
    exBadPrev.lookup "erin" = some ⟨none, "", []⟩ ∧
    exBadCurr.lookup "erin" = some ⟨some 3, "", []⟩ ∧
    ((∃ e, calculate_daily_performance exBadPrev exBadCurr = .error e) ∧
      ((∀ v pv, exBadPrev.lookup v = some pv → pv.balance ≠ some 0) →
        calculate_daily_performance exBadPrev exBadCurr = .error .dataFormat)) :=
  ⟨by with_unfolding_all rfl, by with_unfolding_all rfl,
   @C5_data_format exBadPrev exBadCurr "erin" ⟨none, "", []⟩ ⟨some 3, "", []⟩
     (by with_unfolding_all rfl) (by with_unfolding_all rfl) (Or.inl rfl)⟩

/-! ### C6 -/

/-- C6: the `/leaderboard` selection returns rows sorted descending by
balance, of length `min(max(1, min(count, 10)), len(df))`; the clamp is
applied before selection, so a count at least the table size returns all
rows.  The all-numeric hypothesis reflects that `sort_values` compares
raw column values, which is a numeric comparison only when every cell is
numeric. -/
theorem C6_leaderboard {df : List Row} {count : ℤ}
    (_hnum : ∀ r ∈ df, (r.money).isNum = true) :
    List.Sorted moneyGe (leaderboardTop df count) ∧
    (leaderboardTop df count).length = min (max 1 (min count 10)).toNat df.length ∧
    (df.length ≤ (max 1 (min count 10)).toNat →
      List.Perm (leaderboardTop df count) df) := by
  refine ⟨?_, ?_, ?_⟩
  · exact List.Pairwise.sublist (List.take_sublist ..) (List.sorted_insertionSort moneyGe df)
  · rw [leaderboardTop, List.length_take, (List.perm_insertionSort moneyGe df).length_eq]
  · intro hle
    rw [leaderboardTop, List.take_of_length_le]
    · exact List.perm_insertionSort moneyGe df
    · rw [(List.perm_insertionSort moneyGe df).length_eq]
      exact hle

/-- C6 witness: on a two-row table, `count = 0` clamps to 1 and
`count = 50` clamps to 10 and returns all rows. -/
theorem C6_witness :
    (∀ r ∈ exDf, (r.money).isNum = true) ∧
    (List.Sorted moneyGe (leaderboardTop exDf 0) ∧
      (leaderboardTop exDf 0).length = min (max 1 (min (0:ℤ) 10)).toNat exDf.length ∧
      (exDf.length ≤ (max 1 (min (0:ℤ) 10)).toNat →
        List.Perm (leaderboardTop exDf 0) exDf)) ∧
    (leaderboardTop exDf 0).length = 1 ∧
    (leaderboardTop exDf 50).length = 2 ∧
    leaderboardTop exDf 50 = [⟨"alice", .num 1200, "", []⟩, ⟨"bob", .num 900, "", []⟩] :=
  ⟨by decide, @C6_leaderboard exDf 0 (by decide), by with_unfolding_all rfl,
   by with_unfolding_all rfl, by with_unfolding_all rfl⟩

/-! ### C9 -/

/-- C9: `get_user_info` is not pure in its table argument: whatever the
username, the returned table state is the input with its money column
overwritten by the coerced values, and whenever the table holds a
non-coercible money cell the table is observably changed (that cell
became NaN) — even when the username is not found. -/
theorem C9_table_mutation (df : List Row) (u : String) :
    (get_user_info df u).1 = df.map coerceRow ∧
    (∀ s, (∃ r ∈ df, r.money = Cell.str s) → (get_user_info df u).1 ≠ df) := by
  have hfst : (get_user_info df u).1 = df.map coerceRow := by
    simp only [get_user_info]
    cases hf : (df.map coerceRow).find? (fun r => r.accountName = u) <;> simp [hf]
  refine ⟨hfst, ?_⟩
  intro s hex heq
  obtain ⟨r, hr, hrs⟩ := hex
  rw [hfst] at heq
  have hcr : coerceRow r = r := map_eq_self_mem heq r hr
  have h3 : (coerceRow r).money = Cell.nan := by
    show coerceCell r.money = Cell.nan
    rw [hrs]
    rfl
  have h2 : (coerceRow r).money = r.money := congrArg Row.money hcr
  rw [h3, hrs] at h2
  exact Cell.noConfusion h2

/-- C9 witness: a table with one non-numeric cell is mutated even by a
lookup for an absent username. -/
theorem C9_witness :
    ((get_user_info exDfBad "nobody").1 = exDfBad.map coerceRow ∧
      (∀ s, (∃ r ∈ exDfBad, r.money = Cell.str s) →
        (get_user_info exDfBad "nobody").1 ≠ exDfBad)) ∧
    (get_user_info exDfBad "nobody").1 = [⟨"zed", .nan, "", []⟩] ∧
    (get_user_info exDfBad "nobody").2 = none :=
  ⟨C9_table_mutation exDfBad "nobody", by with_unfolding_all rfl,
   by with_unfolding_all rfl⟩

/-! ### C10 -/

/-- C10: `get_user_info` returns `None` exactly when no row's account
name equals the username, and otherwise returns the name, (coerced)
balance and formatted holdings of the first matching row. -/
theorem C10_first_match (df : List Row) (u : String) :
    ((get_user_info df u).2 = none ↔ ∀ r ∈ df, r.accountName ≠ u) ∧
    (get_user_info df u).2 =
      (df.find? (fun r => r.accountName = u)).map
        (fun r => (r.accountName, coerceCell r.money, formatHoldings r.stocks)) := by
  have hsnd : (get_user_info df u).2 =
      (df.find? (fun r => r.accountName = u)).map
        (fun r => (r.accountName, coerceCell r.money, formatHoldings r.stocks)) := by
    simp only [get_user_info, find?_coerce]
    cases hf : df.find? (fun r => r.accountName = u) with
    | none => simp [hf]
    | some r => simp [hf, coerceRow]
  refine ⟨?_, hsnd⟩
  rw [hsnd]
  constructor
  · intro h r hr hru
    have hnone : df.find? (fun r => r.accountName = u) = none := by
      cases hf : df.find? (fun r => r.accountName = u) with
      | none => rfl
      | some x =>
        rw [hf] at h
        exact Option.noConfusion h
    rw [List.find?_eq_none] at hnone
    exact hnone r hr (decide_eq_true hru)
  · intro h
    cases hf : df.find? (fun r => r.accountName = u) with
    | none => rfl
    | some r =>
      have hm := List.mem_of_find?_eq_some hf
      have hp : r.accountName = u := by simpa using List.find?_some hf
      exact absurd hp (h r hm)

/-- C10 witness: `zed` is found with his coerced balance and empty
holdings text; the none case is covered by the C9 witness's table. -/
theorem C10_witness :
    (((get_user_info exDfBad "zed").2 = none ↔
        ∀ r ∈ exDfBad, r.accountName ≠ "zed") ∧
      (get_user_info exDfBad "zed").2 =
        (exDfBad.find? (fun r => r.accountName = "zed")).map
          (fun r => (r.accountName, coerceCell r.money, formatHoldings r.stocks))) ∧
    (get_user_info exDfBad "zed").2 = some ("zed", Cell.nan, "") :=
  ⟨C10_first_match exDfBad "zed", by with_unfolding_all rfl⟩
